import Mathlib

/-!
Verification of the organization-membership reconciliation engine of
`grafana/resource_organization.go` (terraform-provider-grafana).

Go maps over string keys are embedded as association lists
`List (String × α)` whose keys are unique by construction (every map in
the source is built by repeated assignment starting from an empty map);
map assignment is `mapInsert`, map indexing is `mlookup`, and `range`
loops become folds or structural recursion over the list, which fixes
one iteration order (Go leaves the order unspecified; no property proved
here depends on the chosen order, and counterexamples are arranged to be
order-independent).

Remote calls through the `gapi.Client` are embedded as oracle functions
in a `Client` structure; each embedded operation additionally returns the
list of remote calls it issued and the list of users it skipped with a
warning, so that trace properties (phase order, aborts, skips) can be
stated.  Errors are `Option String` (`none` = success), matching Go's
`error` results.
-/

abbrev Email := String

abbrev Role := String

/-- Go map indexing `v, ok := m[k]`: first (and for uniquely-keyed maps,
only) binding of `k` in the association list. -/
def mlookup (m : List (String × α)) (k : String) : Option α :=
  match m with
  | [] => none
  | p :: rest => if p.1 = k then some p.2 else mlookup rest k

/-- The key set of an embedded Go map. -/
def mkeys (m : List (String × α)) : List String :=
  m.map (fun p => p.1)

/-- Go map assignment `m[k] = v`: overwrite the binding of `k` when
present, append a new binding otherwise. -/
def mapInsert (m : List (String × α)) (k : String) (v : α) : List (String × α) :=
  if m.any (fun p => p.1 = k) then
    m.map (fun p => if p.1 = k then (k, v) else p)
  else
    m ++ [(k, v)]

/-- Inserting a whole list of emails under one role value, the inner loop
of `collectUsers` (`for _, u := range ... { m[u] = roleName }`). -/
def insertList (m : List (String × α)) (es : List String) (v : α) : List (String × α) :=
  es.foldl (fun acc u => mapInsert acc u v) m

/-- `strings.Title(s)` as used in `collectUsers`, where the argument is a
single lowercase word: capitalize the first character. -/
def goTitle (s : String) : String :=
  match s.data with
  | [] => ""
  | c :: cs => String.mk (Char.toUpper c :: cs)

/-- The slice of the terraform `ResourceData` the reconciliation code
reads: the organization id (already parsed), the configured
`admin_user`, and for each of the three role-list keys the pair of
values returned by `d.GetChange` (prior state and declared config). -/
structure ResourceData where
  orgId : Int
  adminUser : String
  adminsOld : List String
  adminsNew : List String
  editorsOld : List String
  editorsNew : List String
  viewersOld : List String
  viewersNew : List String

/-- `d.GetChange(key)` for the three role-list keys. -/
def getChange (d : ResourceData) (key : String) : List String × List String :=
  if key = "admins" then (d.adminsOld, d.adminsNew)
  else if key = "editors" then (d.editorsOld, d.editorsNew)
  else if key = "viewers" then (d.viewersOld, d.viewersNew)
  else ([], [])

/-- `collectUsers`: builds the (old, new) email-to-role maps from the
three role-list keys, iterated in the fixed order admins, editors,
viewers, deriving each role name as `strings.Title(role[:len(role)-1])`. -/
def collectUsers (d : ResourceData) : List (Email × Role) × List (Email × Role) :=
  let roles := ["admins", "editors", "viewers"]
  roles.foldl
    (fun (acc : List (Email × Role) × List (Email × Role)) role =>
      let roleName := goTitle (role.dropRight 1)
      let change := getChange d role
      (insertList acc.1 change.1 roleName, insertList acc.2 change.2 roleName))
    ([], [])

/-- `userDiff`: one pass over `newUsers` classifying each entry as add
(absent from `oldUsers`) or update (present with a different role), then
one pass over `oldUsers` collecting removals (absent from `newUsers`). -/
def userDiff (oldUsers newUsers : List (Email × Role)) :
    List (Email × Role) × List (Email × Role) × List Email :=
  let addUpdate :=
    newUsers.foldl
      (fun (acc : List (Email × Role) × List (Email × Role)) ur =>
        match mlookup oldUsers ur.1 with
        | none => (mapInsert acc.1 ur.1 ur.2, acc.2)
        | some oldRole =>
          if oldRole ≠ ur.2 then (acc.1, mapInsert acc.2 ur.1 ur.2) else acc)
      ([], [])
  let remove :=
    oldUsers.foldl
      (fun (acc : List Email) ur =>
        if (mlookup newUsers ur.1).isSome then acc else acc ++ [ur.1])
      []
  (addUpdate.1, addUpdate.2, remove)

/-- One remote mutation call issued through the `gapi.Client`. -/
inductive Call where
  | addOrgUser : Int → String → String → Call
  | updateOrgUser : Int → Int → String → Call
  | removeOrgUser : Int → Int → Call
deriving DecidableEq

/-- One member of the roster returned by `client.OrgUsers`. -/
structure OrgUser where
  login : String
  email : String
  role : String
deriving DecidableEq

/-- The remote service (`gapi.Client`) as an oracle: the full user list,
the per-organization roster, and the outcome of each mutation call
(`none` = success, `some e` = the error the call returns). -/
structure Client where
  users : Except String (List (String × Int))
  orgUsers : Int → Except String (List OrgUser)
  addOrgUser : Int → String → String → Option String
  updateOrgUser : Int → Int → String → Option String
  removeOrgUser : Int → Int → Option String

/-- Result of one phase function (`addUsers` / `updateUsers` /
`removeUsers`): the Go return value `err`, instrumented with the list of
remote calls the phase issued and the users it skipped with a
`[WARN]` log line. -/
structure PhaseResult where
  err : Option String
  calls : List Call
  skipped : List String
deriving DecidableEq

/-- `userMap`: builds the email-to-id identity index from a single
`client.Users()` query; on query failure returns the error (Go returns
the empty map alongside the error, and the only caller checks the error
first). -/
def userMap (client : Client) : Except String (List (String × Int)) :=
  match client.users with
  | Except.error e => Except.error e
  | Except.ok users =>
    Except.ok (users.foldl (fun m u => mapInsert m u.1 u.2) [])

/-- `addUsers`: for each (email, role), skip with a warning when the
email is not in the index, otherwise call `AddOrgUser(orgId, user, role)`
and return its error immediately when the call fails. -/
def addUsers (client : Client) (orgId : Int) (users : List (Email × Role))
    (userMap : List (String × Int)) : PhaseResult :=
  match users with
  | [] => ⟨none, [], []⟩
  | ur :: rest =>
    match mlookup userMap ur.1 with
    | none =>
      let r := addUsers client orgId rest userMap
      ⟨r.err, r.calls, ur.1 :: r.skipped⟩
    | some _ =>
      match client.addOrgUser orgId ur.1 ur.2 with
      | some e => ⟨some e, [Call.addOrgUser orgId ur.1 ur.2], []⟩
      | none =>
        let r := addUsers client orgId rest userMap
        ⟨r.err, Call.addOrgUser orgId ur.1 ur.2 :: r.calls, r.skipped⟩

/-- `updateUsers`: for each (email, role), skip with a warning when the
email is not in the index, otherwise call
`UpdateOrgUser(orgId, userId, role)` and return its error immediately
when the call fails. -/
def updateUsers (client : Client) (orgId : Int) (users : List (Email × Role))
    (userMap : List (String × Int)) : PhaseResult :=
  match users with
  | [] => ⟨none, [], []⟩
  | ur :: rest =>
    match mlookup userMap ur.1 with
    | none =>
      let r := updateUsers client orgId rest userMap
      ⟨r.err, r.calls, ur.1 :: r.skipped⟩
    | some userId =>
      match client.updateOrgUser orgId userId ur.2 with
      | some e => ⟨some e, [Call.updateOrgUser orgId userId ur.2], []⟩
      | none =>
        let r := updateUsers client orgId rest userMap
        ⟨r.err, Call.updateOrgUser orgId userId ur.2 :: r.calls, r.skipped⟩

/-- `removeUsers`: for each email, skip with a warning when the email is
not in the index, otherwise call `RemoveOrgUser(orgId, userId)` and
return its error immediately when the call fails. -/
def removeUsers (client : Client) (orgId : Int) (users : List Email)
    (userMap : List (String × Int)) : PhaseResult :=
  match users with
  | [] => ⟨none, [], []⟩
  | u :: rest =>
    match mlookup userMap u with
    | none =>
      let r := removeUsers client orgId rest userMap
      ⟨r.err, r.calls, u :: r.skipped⟩
    | some userId =>
      match client.removeOrgUser orgId userId with
      | some e => ⟨some e, [Call.removeOrgUser orgId userId], []⟩
      | none =>
        let r := removeUsers client orgId rest userMap
        ⟨r.err, Call.removeOrgUser orgId userId :: r.calls, r.skipped⟩

/-- `UpdateUsers`: collect (old, new) maps from the resource data, diff
them, build the identity index (aborting on failure), then run the three
phases add, update, remove, discarding each phase's returned error and
returning nil — as the source does on lines 181-184.  The result is the
returned error, with the concatenated call trace and skip list of the
three phases as instrumentation. -/
def UpdateUsers (client : Client) (d : ResourceData) :
    Option String × List Call × List String :=
  let users := collectUsers d
  let diff := userDiff users.1 users.2
  match userMap client with
  | Except.error e => (some e, [], [])
  | Except.ok um =>
    let r1 := addUsers client d.orgId diff.1 um
    let r2 := updateUsers client d.orgId diff.2.1 um
    let r3 := removeUsers client d.orgId diff.2.2 um
    (none, r1.calls ++ r2.calls ++ r3.calls, r1.skipped ++ r2.skipped ++ r3.skipped)

/-- `ReadUsers`, reduced to its data flow: from the queried roster,
build the three role lists (admins, editors, viewers) that are written
back into the resource state, excluding any roster entry whose login
equals the configured `admin_user`.  The source accumulates into a map
keyed by the role string and then reads back the keys "Admin",
"Editor", "Viewer"; entries with any other role string end up under
stray keys that are never read into these three lists, which the
embedding renders by ignoring them. -/
def ReadUsers (orgUsers : List OrgUser) (grafAdmin : String) :
    List String × List String × List String :=
  orgUsers.foldl
    (fun (acc : List String × List String × List String) ou =>
      if ou.login ≠ grafAdmin then
        if ou.role = "Admin" then (acc.1 ++ [ou.email], acc.2.1, acc.2.2)
        else if ou.role = "Editor" then (acc.1, acc.2.1 ++ [ou.email], acc.2.2)
        else if ou.role = "Viewer" then (acc.1, acc.2.1, acc.2.2 ++ [ou.email])
        else acc
      else acc)
    ([], [], [])

/-- The observed email-to-role map an `UpdateUsers` pass would work from
when the prior state was last written by `ReadUsers` from the given
roster: `ReadUsers` projects the roster to the three role lists, and
`collectUsers` rebuilds the map from those lists on its old side. -/
def observedFromRoster (roster : List OrgUser) (grafAdmin : String) :
    List (Email × Role) :=
  let ls := ReadUsers roster grafAdmin
  (collectUsers ⟨0, grafAdmin, ls.1, [], ls.2.1, [], ls.2.2, []⟩).1

/-- The add set of the diff, characterized entrywise: the entries of
`newUsers` whose email is absent from `oldUsers`. -/
def addOf (oldUsers newUsers : List (Email × Role)) : List (Email × Role) :=
  newUsers.filter (fun ur => (mlookup oldUsers ur.1).isNone)

/-- The update set of the diff, characterized entrywise: the entries of
`newUsers` whose email is present in `oldUsers` with a different role. -/
def updateOf (oldUsers newUsers : List (Email × Role)) : List (Email × Role) :=
  newUsers.filter (fun ur =>
    match mlookup oldUsers ur.1 with
    | none => false
    | some oldRole => decide (oldRole ≠ ur.2))

/-- The remove set of the diff, characterized entrywise: the emails of
`oldUsers` absent from `newUsers`. -/
def removeOf (oldUsers newUsers : List (Email × Role)) : List Email :=
  mkeys (oldUsers.filter (fun ur => (mlookup newUsers ur.1).isNone))

/-- Phase classification of a call. -/
def Call.isAdd : Call → Bool
  | Call.addOrgUser _ _ _ => true
  | _ => false

/-- Phase classification of a call. -/
def Call.isUpdate : Call → Bool
  | Call.updateOrgUser _ _ _ => true
  | _ => false

/-- Phase classification of a call. -/
def Call.isRemove : Call → Bool
  | Call.removeOrgUser _ _ => true
  | _ => false

/-- Whether a call targets the user identified by the given email (for
add calls, which carry the email) or numeric id (for update and remove
calls, which carry the id). -/
def Call.mentions (c : Call) (email : String) (uid : Int) : Bool :=
  match c with
  | Call.addOrgUser _ e _ => e = email
  | Call.updateOrgUser _ j _ => j = uid
  | Call.removeOrgUser _ j => j = uid

/-- A client with its roster query replaced, all other oracles kept. -/
def setOrgUsers (client : Client) (f : Int → Except String (List OrgUser)) : Client :=
  ⟨client.users, f, client.addOrgUser, client.updateOrgUser, client.removeOrgUser⟩

/-- The remote service used for the C8 witness: the user-list query is
down, every other oracle succeeds. -/
def cUsersDown : Client :=
  ⟨Except.error "users query failed", fun _ => Except.ok [],
   fun _ _ _ => none, fun _ _ _ => none, fun _ _ => none⟩

/-- A resource state asking for one admin, used by several witnesses. -/
def dOneAdmin : ResourceData := ⟨1, "admin", [], ["alice"], [], [], [], []⟩

/-- The remote service used for C3/C4: the identity index resolves
"alice"/"a"/"b"/"x", every AddOrgUser call fails with "boom", update and
remove calls succeed. -/
def cAddFails : Client :=
  ⟨Except.ok [("alice", 1), ("a", 1), ("b", 2), ("x", 9)], fun _ => Except.ok [],
   fun _ _ _ => some "boom", fun _ _ _ => none, fun _ _ => none⟩

/-- A resource state declaring two new admins, used for the C4
counterexample. -/
def dTwoAdmins : ResourceData := ⟨1, "admin", [], ["a", "b"], [], [], [], []⟩

/-- A resource state with one new admin and one stale viewer, used for
the C4-amended witness. -/
def dMix : ResourceData := ⟨1, "admin", [], ["a"], [], [], ["x"], []⟩

/-- Modelled from the spec for comparison with the code: the observed
mapping as §3 describes it, "derived from querying the remote roster for
the organization" — a fresh `OrgUsers` call for the organization at the
start of the pass, projected through the exempt-login filter and the
role lists exactly as a refresh would be. -/
def specObservedFresh (client : Client) (d : ResourceData) :
    Except String (List (Email × Role)) :=
  match client.orgUsers d.orgId with
  | Except.error e => Except.error e
  | Except.ok roster => Except.ok (observedFromRoster roster d.adminUser)

/-- The remote service used for the C2 counterexample: the roster holds
one viewer, bob, whose email also resolves in the index. -/
def cStaleState : Client :=
  ⟨Except.ok [("b@x", 2)], fun _ => Except.ok [⟨"bob", "b@x", "Viewer"⟩],
   fun _ _ _ => none, fun _ _ _ => none, fun _ _ => none⟩

/-- A resource state whose stored role lists are all empty (old and
new), while the remote roster is not. -/
def dStale : ResourceData := ⟨1, "admin", [], [], [], [], [], []⟩

/-- The remote service whose every call succeeds, with two known
users. -/
def cAllOk : Client :=
  ⟨Except.ok [("a", 1), ("b", 2)], fun _ => Except.ok [],
   fun _ _ _ => none, fun _ _ _ => none, fun _ _ => none⟩

/-- A resource state changing user "a" from Editor to Admin. -/
def dRoleChange : ResourceData := ⟨1, "admin", [], ["a"], ["a"], [], [], []⟩

/-- The loop body of `ReadUsers`, named for the proofs. -/
def readStep (grafAdmin : String)
    (acc : List String × List String × List String) (ou : OrgUser) :
    List String × List String × List String :=
  if ou.login ≠ grafAdmin then
    if ou.role = "Admin" then (acc.1 ++ [ou.email], acc.2.1, acc.2.2)
    else if ou.role = "Editor" then (acc.1, acc.2.1 ++ [ou.email], acc.2.2)
    else if ou.role = "Viewer" then (acc.1, acc.2.1, acc.2.2 ++ [ou.email])
    else acc
  else acc

/-- A resource state as it stands right after a `ReadUsers` refresh from
the given roster: old role lists are the refreshed ones, new role lists
are the declared configuration. -/
def refreshedData (roster : List OrgUser) (grafAdmin : String)
    (admins editors viewers : List String) (orgId : Int) : ResourceData :=
  ⟨orgId, grafAdmin, (ReadUsers roster grafAdmin).1, admins,
   (ReadUsers roster grafAdmin).2.1, editors,
   (ReadUsers roster grafAdmin).2.2, viewers⟩

/-- The roster used for the C5 witness: the automatically-added admin
plus an ordinary viewer. -/
def roster5 : List OrgUser := [⟨"admin", "ad@x", "Admin"⟩, ⟨"bob", "b@x", "Viewer"⟩]

theorem mem_mkeys (m : List (String × α)) (k : String) :
    k ∈ mkeys m ↔ ∃ v, (k, v) ∈ m := by
  rw [mkeys, List.mem_map]
  constructor
  · rintro ⟨⟨k1, v⟩, hp, he⟩
    cases he
    exact ⟨v, hp⟩
  · rintro ⟨v, hv⟩
    exact ⟨(k, v), hv, rfl⟩

theorem mlookup_eq_none_iff (m : List (String × α)) (k : String) :
    mlookup m k = none ↔ k ∉ mkeys m := by
  induction m with
  | nil => simp [mlookup, mkeys]
  | cons p rest ih =>
    have hm : mkeys (p :: rest) = p.1 :: mkeys rest := rfl
    by_cases h : p.1 = k
    · simp [mlookup, h, hm]
    · rw [show mlookup (p :: rest) k = mlookup rest k by simp [mlookup, h], ih, hm,
        List.mem_cons, not_or]
      constructor
      · intro hk
        exact ⟨fun he => h he.symm, hk⟩
      · intro hk
        exact hk.2

theorem mlookup_isSome_iff (m : List (String × α)) (k : String) :
    (mlookup m k).isSome ↔ k ∈ mkeys m := by
  rw [Option.isSome_iff_ne_none]
  rw [ne_eq, mlookup_eq_none_iff]
  tauto

theorem mlookup_mem (m : List (String × α)) (k : String) (v : α)
    (h : mlookup m k = some v) : (k, v) ∈ m := by
  induction m with
  | nil => simp [mlookup] at h
  | cons p rest ih =>
    by_cases hp : p.1 = k
    · rw [show mlookup (p :: rest) k = some p.2 by simp [mlookup, hp]] at h
      have : (k, v) = p := Prod.ext hp.symm (by injection h with h2; exact h2.symm)
      rw [this]
      exact List.mem_cons_self p rest
    · rw [show mlookup (p :: rest) k = mlookup rest k by simp [mlookup, hp]] at h
      exact List.mem_cons_of_mem p (ih h)

theorem mem_mlookup (m : List (String × α)) (k : String) (v : α)
    (hnd : (mkeys m).Nodup) (hm : (k, v) ∈ m) : mlookup m k = some v := by
  induction m with
  | nil => simp at hm
  | cons p rest ih =>
    rw [show mkeys (p :: rest) = p.1 :: mkeys rest from rfl, List.nodup_cons] at hnd
    rcases List.mem_cons.mp hm with h | h
    · rw [← h]
      simp [mlookup]
    · have hk : k ∈ mkeys rest := (mem_mkeys rest k).mpr ⟨v, h⟩
      have hp : ¬(p.1 = k) := by
        intro he
        exact hnd.1 (by rwa [he, mkeys])
      simp only [mlookup, hp, if_false]
      exact ih hnd.2 h

theorem mapInsert_of_not_mem (m : List (String × α)) (k : String) (v : α)
    (h : k ∉ mkeys m) : mapInsert m k v = m ++ [(k, v)] := by
  have hany : m.any (fun p => p.1 = k) = false := by
    rw [List.any_eq_false]
    rintro ⟨k1, v1⟩ hp
    simp only [decide_eq_true_eq]
    intro he
    apply h
    rw [← he]
    exact (mem_mkeys m k1).mpr ⟨v1, hp⟩
  simp [mapInsert, hany]

theorem any_key_eq_true (m : List (String × α)) (k : String) :
    m.any (fun p => p.1 = k) = true ↔ k ∈ mkeys m := by
  rw [List.any_eq_true]
  constructor
  · rintro ⟨⟨k1, v1⟩, hp, he⟩
    simp only [decide_eq_true_eq] at he
    rw [← he]
    exact (mem_mkeys m k1).mpr ⟨v1, hp⟩
  · intro hk
    obtain ⟨v, hv⟩ := (mem_mkeys m k).mp hk
    exact ⟨(k, v), hv, by simp⟩

theorem mapInsert_of_mem (m : List (String × α)) (k : String) (v : α)
    (h : k ∈ mkeys m) :
    mapInsert m k v = m.map (fun p => if p.1 = k then (k, v) else p) := by
  rw [mapInsert, if_pos]
  exact (any_key_eq_true m k).mpr h

theorem mlookup_append (m1 m2 : List (String × α)) (k : String) :
    mlookup (m1 ++ m2) k =
      match mlookup m1 k with
      | some v => some v
      | none => mlookup m2 k := by
  induction m1 with
  | nil => simp [mlookup]
  | cons p rest ih =>
    by_cases h : p.1 = k
    · simp [mlookup, h]
    · simp [mlookup, h, ih]

theorem mlookup_replace_ne (m : List (String × α)) (k : String) (v : α)
    (k' : String) (h : k' ≠ k) :
    mlookup (m.map (fun p => if p.1 = k then (k, v) else p)) k' = mlookup m k' := by
  induction m with
  | nil => simp [mlookup]
  | cons p rest ih =>
    by_cases hp : p.1 = k
    · have hne : ¬((k : String) = k') := fun he => h he.symm
      rw [List.map_cons, if_pos hp]
      rw [show mlookup ((k, v) :: List.map (fun p => if p.1 = k then (k, v) else p) rest) k'
          = mlookup (List.map (fun p => if p.1 = k then (k, v) else p) rest) k' by
        simp [mlookup, hne]]
      rw [ih]
      have hpk : ¬(p.1 = k') := by
        rw [hp]
        exact hne
      simp [mlookup, hpk]
    · rw [List.map_cons, if_neg hp]
      by_cases hq : p.1 = k'
      · simp [mlookup, hq]
      · simp [mlookup, hq, ih]

theorem mlookup_replace_eq (m : List (String × α)) (k : String) (v : α)
    (h : k ∈ mkeys m) :
    mlookup (m.map (fun p => if p.1 = k then (k, v) else p)) k = some v := by
  induction m with
  | nil => simp [mkeys] at h
  | cons p rest ih =>
    by_cases hp : p.1 = k
    · rw [List.map_cons, if_pos hp]
      simp [mlookup]
    · rw [show mkeys (p :: rest) = p.1 :: mkeys rest from rfl, List.mem_cons] at h
      rcases h with h | h
      · exact absurd h.symm hp
      · rw [List.map_cons, if_neg hp]
        rw [show mlookup (p :: List.map (fun p => if p.1 = k then (k, v) else p) rest) k
            = mlookup (List.map (fun p => if p.1 = k then (k, v) else p) rest) k by
          simp [mlookup, hp]]
        exact ih h

theorem mlookup_mapInsert (m : List (String × α)) (k : String) (v : α) (k' : String) :
    mlookup (mapInsert m k v) k' = if k' = k then some v else mlookup m k' := by
  by_cases hm : k ∈ mkeys m
  · rw [mapInsert_of_mem m k v hm]
    by_cases he : k' = k
    · rw [he, if_pos rfl]
      exact mlookup_replace_eq m k v hm
    · rw [if_neg he]
      exact mlookup_replace_ne m k v k' he
  · rw [mapInsert_of_not_mem m k v hm, mlookup_append]
    by_cases he : k' = k
    · rw [he, if_pos rfl]
      rw [(mlookup_eq_none_iff m k).mpr hm]
      simp [mlookup]
    · rw [if_neg he]
      cases hl : mlookup m k' with
      | some v1 => rfl
      | none =>
        simp only [mlookup]
        rw [if_neg (fun hh : k = k' => he hh.symm)]

theorem mkeys_mapInsert_of_mem (m : List (String × α)) (k : String) (v : α)
    (h : k ∈ mkeys m) : mkeys (mapInsert m k v) = mkeys m := by
  rw [mapInsert_of_mem m k v h, mkeys, List.map_map, mkeys]
  apply List.map_congr_left
  intro p hp
  by_cases hp1 : p.1 = k
  · simp [hp1]
  · simp [hp1]

theorem mkeys_mapInsert_of_not_mem (m : List (String × α)) (k : String) (v : α)
    (h : k ∉ mkeys m) : mkeys (mapInsert m k v) = mkeys m ++ [k] := by
  rw [mapInsert_of_not_mem m k v h, mkeys, List.map_append, ← mkeys, ← mkeys]
  rfl

theorem nodup_mkeys_mapInsert (m : List (String × α)) (k : String) (v : α)
    (h : (mkeys m).Nodup) : (mkeys (mapInsert m k v)).Nodup := by
  by_cases hm : k ∈ mkeys m
  · rw [mkeys_mapInsert_of_mem m k v hm]
    exact h
  · rw [mkeys_mapInsert_of_not_mem m k v hm]
    exact List.Nodup.append h (List.nodup_singleton k)
      (by simpa [List.disjoint_singleton] using hm)

theorem mlookup_insertList (m : List (String × α)) (es : List String) (v : α)
    (k : String) :
    mlookup (insertList m es v) k = if k ∈ es then some v else mlookup m k := by
  induction es generalizing m with
  | nil => simp [insertList]
  | cons e rest ih =>
    rw [show insertList m (e :: rest) v = insertList (mapInsert m e v) rest v from rfl, ih]
    by_cases hr : k ∈ rest
    · simp [hr]
    · by_cases he : k = e
      · simp [hr, he, mlookup_mapInsert]
      · simp [hr, he, mlookup_mapInsert]

theorem nodup_mkeys_insertList (m : List (String × α)) (es : List String) (v : α)
    (h : (mkeys m).Nodup) : (mkeys (insertList m es v)).Nodup := by
  induction es generalizing m with
  | nil => exact h
  | cons e rest ih =>
    exact ih (mapInsert m e v) (nodup_mkeys_mapInsert m e v h)

theorem foldl_remove_eq (n : List (Email × Role)) (o : List (Email × Role)) :
    ∀ (acc : List Email),
    o.foldl (fun acc ur => if (mlookup n ur.1).isSome then acc else acc ++ [ur.1]) acc
      = acc ++ removeOf o n := by
  induction o with
  | nil => intro acc; simp [removeOf, mkeys]
  | cons ur rest ih =>
    intro acc
    rw [List.foldl_cons]
    cases hml : mlookup n ur.1 with
    | some v =>
      have h1 : removeOf (ur :: rest) n = removeOf rest n := by
        rw [removeOf, removeOf, List.filter_cons, hml]
        rfl
      rw [h1, ← ih acc]
      rfl
    | none =>
      have h1 : removeOf (ur :: rest) n = ur.1 :: removeOf rest n := by
        rw [removeOf, removeOf, List.filter_cons, hml]
        rfl
      rw [h1]
      rw [show acc ++ ur.1 :: removeOf rest n = (acc ++ [ur.1]) ++ removeOf rest n by
        rw [List.append_assoc]; rfl]
      rw [← ih (acc ++ [ur.1])]
      rfl

theorem foldl_addUpdate_eq (o : List (Email × Role)) :
    ∀ (n : List (Email × Role)) (acc : List (Email × Role) × List (Email × Role)),
    (mkeys n).Nodup →
    (∀ ur ∈ n, ur.1 ∉ mkeys acc.1 ∧ ur.1 ∉ mkeys acc.2) →
    n.foldl
      (fun (acc : List (Email × Role) × List (Email × Role)) ur =>
        match mlookup o ur.1 with
        | none => (mapInsert acc.1 ur.1 ur.2, acc.2)
        | some oldRole =>
          if oldRole ≠ ur.2 then (acc.1, mapInsert acc.2 ur.1 ur.2) else acc)
      acc
      = (acc.1 ++ addOf o n, acc.2 ++ updateOf o n) := by
  intro n
  induction n with
  | nil => intro acc _ _; simp [addOf, updateOf]
  | cons ur rest ih =>
    intro acc hnd hinv
    rw [show mkeys (ur :: rest) = ur.1 :: mkeys rest from rfl, List.nodup_cons] at hnd
    have hur := hinv ur (List.mem_cons_self ur rest)
    have hne : ∀ ur2 ∈ rest, ur2.1 ≠ ur.1 := by
      intro ur2 h2 he
      exact hnd.1 (by rw [← he]; exact (mem_mkeys rest ur2.1).mpr ⟨ur2.2, h2⟩)
    have hinv2 : ∀ ur2 ∈ rest, ur2.1 ∉ mkeys acc.1 ∧ ur2.1 ∉ mkeys acc.2 :=
      fun ur2 h2 => hinv ur2 (List.mem_cons_of_mem ur h2)
    rw [List.foldl_cons]
    cases hml : mlookup o ur.1 with
    | none =>
      change List.foldl _ (mapInsert acc.1 ur.1 ur.2, acc.2) rest = _
      rw [mapInsert_of_not_mem acc.1 ur.1 ur.2 hur.1]
      rw [show ((acc.1 ++ [(ur.1, ur.2)], acc.2) :
          List (Email × Role) × List (Email × Role)) = (acc.1 ++ [ur], acc.2) from rfl]
      rw [ih (acc.1 ++ [ur], acc.2) hnd.2 (by
        intro ur2 h2
        refine ⟨?_, (hinv2 ur2 h2).2⟩
        rw [show mkeys (acc.1 ++ [ur]) = mkeys acc.1 ++ [ur.1] by
          rw [mkeys, List.map_append]; rfl]
        rw [List.mem_append, List.mem_singleton]
        rintro (hc | hc)
        · exact (hinv2 ur2 h2).1 hc
        · exact hne ur2 h2 hc)]
      have ha : addOf o (ur :: rest) = ur :: addOf o rest := by
        rw [addOf, addOf, List.filter_cons, hml]
        rfl
      have hu : updateOf o (ur :: rest) = updateOf o rest := by
        rw [updateOf, updateOf, List.filter_cons, hml]
        rfl
      rw [ha, hu]
      rw [show acc.1 ++ ur :: addOf o rest = (acc.1 ++ [ur]) ++ addOf o rest by
        rw [List.append_assoc]; rfl]
    | some oldRole =>
      change List.foldl _
        (if oldRole ≠ ur.2 then (acc.1, mapInsert acc.2 ur.1 ur.2) else acc) rest = _
      by_cases hr : oldRole ≠ ur.2
      · rw [if_pos hr]
        rw [mapInsert_of_not_mem acc.2 ur.1 ur.2 hur.2]
        rw [show ((acc.1, acc.2 ++ [(ur.1, ur.2)]) :
            List (Email × Role) × List (Email × Role)) = (acc.1, acc.2 ++ [ur]) from rfl]
        rw [ih (acc.1, acc.2 ++ [ur]) hnd.2 (by
          intro ur2 h2
          refine ⟨(hinv2 ur2 h2).1, ?_⟩
          rw [show mkeys (acc.2 ++ [ur]) = mkeys acc.2 ++ [ur.1] by
            rw [mkeys, List.map_append]; rfl]
          rw [List.mem_append, List.mem_singleton]
          rintro (hc | hc)
          · exact (hinv2 ur2 h2).2 hc
          · exact hne ur2 h2 hc)]
        have ha : addOf o (ur :: rest) = addOf o rest := by
          rw [addOf, addOf, List.filter_cons, hml]
          rfl
        have hu : updateOf o (ur :: rest) = ur :: updateOf o rest := by
          rw [updateOf, updateOf, List.filter_cons, hml]
          rw [if_pos (by simpa using hr)]
        rw [ha, hu]
        rw [show acc.2 ++ ur :: updateOf o rest = (acc.2 ++ [ur]) ++ updateOf o rest by
          rw [List.append_assoc]; rfl]
      · rw [if_neg hr]
        rw [ih acc hnd.2 hinv2]
        have ha : addOf o (ur :: rest) = addOf o rest := by
          rw [addOf, addOf, List.filter_cons, hml]
          rfl
        have hu : updateOf o (ur :: rest) = updateOf o rest := by
          rw [updateOf, updateOf, List.filter_cons, hml]
          rw [if_neg (by simpa using hr)]
        rw [ha, hu]

theorem userDiff_eq (o n : List (Email × Role)) (hn : (mkeys n).Nodup) :
    userDiff o n = (addOf o n, updateOf o n, removeOf o n) := by
  rw [userDiff]
  rw [foldl_addUpdate_eq o n ([], []) hn (by intro ur _; exact ⟨by simp [mkeys], by simp [mkeys]⟩)]
  rw [foldl_remove_eq n o []]
  simp

theorem mem_mkeys_filter (m : List (String × α)) (p : String × α → Bool) (k : String) :
    k ∈ mkeys (m.filter p) ↔ ∃ v, (k, v) ∈ m ∧ p (k, v) = true := by
  rw [mem_mkeys]
  constructor
  · rintro ⟨v, hv⟩
    exact ⟨v, (List.mem_filter.mp hv).1, (List.mem_filter.mp hv).2⟩
  · rintro ⟨v, hv, hp⟩
    exact ⟨v, List.mem_filter.mpr ⟨hv, hp⟩⟩

theorem mkeys_filter_sublist (m : List (String × α)) (p : String × α → Bool) :
    (mkeys (m.filter p)).Sublist (mkeys m) := by
  rw [mkeys, mkeys]
  exact List.Sublist.map (fun q => q.1) (List.filter_sublist m)

theorem nodup_mkeys_filter (m : List (String × α)) (p : String × α → Bool)
    (hnd : (mkeys m).Nodup) : (mkeys (m.filter p)).Nodup :=
  List.Nodup.sublist (mkeys_filter_sublist m p) hnd

theorem mlookup_filter (m : List (String × α)) (p : String × α → Bool) (k : String)
    (hnd : (mkeys m).Nodup) :
    mlookup (m.filter p) k
      = (mlookup m k).bind (fun v => if p (k, v) then some v else none) := by
  cases hml : mlookup m k with
  | none =>
    rw [Option.none_bind, mlookup_eq_none_iff]
    intro hk
    obtain ⟨v, hv, _⟩ := (mem_mkeys_filter m p k).mp hk
    exact (mlookup_eq_none_iff m k).mp hml ((mem_mkeys m k).mpr ⟨v, hv⟩)
  | some v =>
    rw [Option.some_bind]
    have hmem := mlookup_mem m k v hml
    by_cases hp : p (k, v) = true
    · rw [if_pos hp]
      exact mem_mlookup (m.filter p) k v (nodup_mkeys_filter m p hnd)
        (List.mem_filter.mpr ⟨hmem, hp⟩)
    · rw [if_neg hp, mlookup_eq_none_iff]
      intro hk
      obtain ⟨v2, hv2, hp2⟩ := (mem_mkeys_filter m p k).mp hk
      have hv2v : v2 = v := by
        have h3 := mem_mlookup m k v2 hnd hv2
        rw [hml] at h3
        injection h3 with h4
        exact h4.symm
      rw [hv2v] at hp2
      exact hp hp2

theorem mem_removeOf (o n : List (Email × Role)) (k : String) :
    k ∈ removeOf o n ↔ (∃ v, (k, v) ∈ o) ∧ mlookup n k = none := by
  rw [removeOf, mem_mkeys_filter]
  constructor
  · rintro ⟨v, hv, hp⟩
    refine ⟨⟨v, hv⟩, ?_⟩
    cases hml : mlookup n k with
    | none => rfl
    | some w =>
      rw [show (k, v).1 = k from rfl, hml] at hp
      simp [Option.isNone] at hp
  · rintro ⟨⟨v, hv⟩, hml⟩
    refine ⟨v, hv, ?_⟩
    rw [show (k, v).1 = k from rfl, hml]
    rfl

theorem nodup_removeOf (o n : List (Email × Role)) (ho : (mkeys o).Nodup) :
    (removeOf o n).Nodup :=
  nodup_mkeys_filter o _ ho

theorem collectUsers_old_eq (d : ResourceData) :
    (collectUsers d).1 =
      insertList (insertList (insertList [] d.adminsOld "Admin")
        d.editorsOld "Editor") d.viewersOld "Viewer" := rfl

theorem collectUsers_new_eq (d : ResourceData) :
    (collectUsers d).2 =
      insertList (insertList (insertList [] d.adminsNew "Admin")
        d.editorsNew "Editor") d.viewersNew "Viewer" := rfl

theorem mlookup_collectUsers_old (d : ResourceData) (e : String) :
    mlookup (collectUsers d).1 e =
      if e ∈ d.viewersOld then some "Viewer"
      else if e ∈ d.editorsOld then some "Editor"
      else if e ∈ d.adminsOld then some "Admin"
      else none := by
  rw [collectUsers_old_eq, mlookup_insertList, mlookup_insertList, mlookup_insertList]
  rfl

theorem mlookup_collectUsers_new (d : ResourceData) (e : String) :
    mlookup (collectUsers d).2 e =
      if e ∈ d.viewersNew then some "Viewer"
      else if e ∈ d.editorsNew then some "Editor"
      else if e ∈ d.adminsNew then some "Admin"
      else none := by
  rw [collectUsers_new_eq, mlookup_insertList, mlookup_insertList, mlookup_insertList]
  rfl

theorem nodup_collectUsers_old (d : ResourceData) : (mkeys (collectUsers d).1).Nodup := by
  rw [collectUsers_old_eq]
  apply nodup_mkeys_insertList
  apply nodup_mkeys_insertList
  apply nodup_mkeys_insertList
  exact List.nodup_nil

theorem nodup_collectUsers_new (d : ResourceData) : (mkeys (collectUsers d).2).Nodup := by
  rw [collectUsers_new_eq]
  apply nodup_mkeys_insertList
  apply nodup_mkeys_insertList
  apply nodup_mkeys_insertList
  exact List.nodup_nil

/-- C1: `userDiff` implements the specified diff algorithm.  For maps
with unique keys (as Go maps are): a desired email absent from observed
is in the add set with its desired role; a desired email present with a
different role is in the update set with the desired role; a desired
email present with the same role appears in no output; an observed email
absent from desired is in the remove set; empty desired yields
remove = all observed keys with empty add/update; identical inputs
yield three empty outputs. -/
theorem C1_userDiff_algorithm (o n : List (Email × Role))
    (ho : (mkeys o).Nodup) (hn : (mkeys n).Nodup) :
    (∀ u r, mlookup n u = some r → mlookup o u = none →
      mlookup (userDiff o n).1 u = some r)
    ∧ (∀ u r r2, mlookup n u = some r → mlookup o u = some r2 → r2 ≠ r →
      mlookup (userDiff o n).2.1 u = some r)
    ∧ (∀ u r, mlookup n u = some r → mlookup o u = some r →
      u ∉ mkeys (userDiff o n).1 ∧ u ∉ mkeys (userDiff o n).2.1
        ∧ u ∉ (userDiff o n).2.2)
    ∧ (∀ u, u ∈ mkeys o → mlookup n u = none → u ∈ (userDiff o n).2.2)
    ∧ (userDiff o [] = ([], [], mkeys o))
    ∧ (userDiff o o = ([], [], [])) := by
  refine ⟨?_, ?_, ?_, ?_, ?_, ?_⟩
  · intro u r hnu hou
    rw [userDiff_eq o n hn]
    show mlookup (addOf o n) u = some r
    rw [addOf, mlookup_filter n _ u hn, hnu, Option.some_bind]
    show (if (mlookup o u).isNone = true then some r else none) = some r
    rw [hou]
    rfl
  · intro u r r2 hnu hou hne
    rw [userDiff_eq o n hn]
    show mlookup (updateOf o n) u = some r
    rw [updateOf, mlookup_filter n _ u hn, hnu, Option.some_bind]
    show (if (match mlookup o u with
        | none => false
        | some oldRole => decide (oldRole ≠ r)) = true then some r else none) = some r
    rw [hou]
    show (if decide (r2 ≠ r) = true then some r else none) = some r
    rw [if_pos (decide_eq_true hne)]
  · intro u r hnu hou
    rw [userDiff_eq o n hn]
    refine ⟨?_, ?_, ?_⟩
    · show u ∉ mkeys (addOf o n)
      intro hk
      obtain ⟨v, hv, hp⟩ := (mem_mkeys_filter n _ u).mp hk
      have hp2 : (mlookup o u).isNone = true := hp
      rw [hou] at hp2
      exact Bool.noConfusion hp2
    · show u ∉ mkeys (updateOf o n)
      intro hk
      obtain ⟨v, hv, hp⟩ := (mem_mkeys_filter n _ u).mp hk
      have hvr : v = r := by
        have h3 := mem_mlookup n u v hn hv
        rw [hnu] at h3
        injection h3 with h4
        exact h4.symm
      have hp2 : (match mlookup o u with
          | none => false
          | some oldRole => decide (oldRole ≠ v)) = true := hp
      rw [hvr, hou] at hp2
      simp at hp2
    · show u ∉ removeOf o n
      intro hk
      have h3 := (mem_removeOf o n u).mp hk
      rw [hnu] at h3
      exact Option.noConfusion h3.2
  · intro u hu hnu
    rw [userDiff_eq o n hn]
    show u ∈ removeOf o n
    exact (mem_removeOf o n u).mpr ⟨(mem_mkeys o u).mp hu, hnu⟩
  · rw [userDiff_eq o [] (by exact List.nodup_nil)]
    rw [show removeOf o [] = mkeys o by
      rw [removeOf]
      congr 1
      exact List.filter_eq_self.mpr (fun a _ => rfl)]
    rfl
  · have hadd : addOf o o = [] := by
      apply List.filter_eq_nil_iff.mpr
      intro ur hur h
      rw [Option.isNone_iff_eq_none, mlookup_eq_none_iff] at h
      exact h ((mem_mkeys o ur.1).mpr ⟨ur.2, hur⟩)
    have hupd : updateOf o o = [] := by
      apply List.filter_eq_nil_iff.mpr
      intro ur hur h
      have h1 : mlookup o ur.1 = some ur.2 := mem_mlookup o ur.1 ur.2 ho hur
      have h2 : (match mlookup o ur.1 with
          | none => false
          | some oldRole => decide (oldRole ≠ ur.2)) = true := h
      rw [h1] at h2
      simp at h2
    have hrem : removeOf o o = [] := by
      rw [removeOf]
      rw [List.filter_eq_nil_iff.mpr (by
        intro ur hur h
        rw [Option.isNone_iff_eq_none, mlookup_eq_none_iff] at h
        exact h ((mem_mkeys o ur.1).mpr ⟨ur.2, hur⟩))]
      rfl
    rw [userDiff_eq o o ho, hadd, hupd, hrem]

/-- Closed witness for C1, exercising the add, update, remove and
no-op branches at Scenario A of the specification. -/
theorem C1_userDiff_algorithm_witness :
    mlookup (userDiff [("a", "Editor"), ("b", "Viewer")]
      [("a", "Admin"), ("c", "Viewer")]).1 "c" = some "Viewer"
    ∧ mlookup (userDiff [("a", "Editor"), ("b", "Viewer")]
      [("a", "Admin"), ("c", "Viewer")]).2.1 "a" = some "Admin"
    ∧ "b" ∈ (userDiff [("a", "Editor"), ("b", "Viewer")]
      [("a", "Admin"), ("c", "Viewer")]).2.2 := by
  have h := C1_userDiff_algorithm [("a", "Editor"), ("b", "Viewer")]
    [("a", "Admin"), ("c", "Viewer")] (by decide) (by decide)
  exact ⟨h.1 "c" "Viewer" (by decide) (by decide),
    h.2.1 "a" "Admin" "Editor" (by decide) (by decide) (by decide),
    h.2.2.2.1 "b" (by decide) (by decide)⟩

/-- C10: for uniquely-keyed inputs, the three outputs of `userDiff` have
pairwise disjoint key sets, with add keys contained in desired minus
observed, update keys in the intersection, remove elements in observed
minus desired, and no duplicates in the remove list. -/
theorem C10_userDiff_outputs_disjoint (o n : List (Email × Role))
    (ho : (mkeys o).Nodup) (hn : (mkeys n).Nodup) :
    (∀ u, u ∈ mkeys (userDiff o n).1 → u ∈ mkeys n ∧ u ∉ mkeys o)
    ∧ (∀ u, u ∈ mkeys (userDiff o n).2.1 → u ∈ mkeys n ∧ u ∈ mkeys o)
    ∧ (∀ u, u ∈ (userDiff o n).2.2 → u ∈ mkeys o ∧ u ∉ mkeys n)
    ∧ (∀ u, ¬(u ∈ mkeys (userDiff o n).1 ∧ u ∈ mkeys (userDiff o n).2.1))
    ∧ (∀ u, ¬(u ∈ mkeys (userDiff o n).1 ∧ u ∈ (userDiff o n).2.2))
    ∧ (∀ u, ¬(u ∈ mkeys (userDiff o n).2.1 ∧ u ∈ (userDiff o n).2.2))
    ∧ (userDiff o n).2.2.Nodup := by
  have ha : ∀ u, u ∈ mkeys (userDiff o n).1 → u ∈ mkeys n ∧ u ∉ mkeys o := by
    intro u hk
    rw [userDiff_eq o n hn] at hk
    obtain ⟨v, hv, hp⟩ := (mem_mkeys_filter n _ u).mp hk
    have hp2 : (mlookup o u).isNone = true := hp
    rw [Option.isNone_iff_eq_none, mlookup_eq_none_iff] at hp2
    exact ⟨(mem_mkeys n u).mpr ⟨v, hv⟩, hp2⟩
  have hb : ∀ u, u ∈ mkeys (userDiff o n).2.1 → u ∈ mkeys n ∧ u ∈ mkeys o := by
    intro u hk
    rw [userDiff_eq o n hn] at hk
    obtain ⟨v, hv, hp⟩ := (mem_mkeys_filter n _ u).mp hk
    have hp2 : (match mlookup o u with
        | none => false
        | some oldRole => decide (oldRole ≠ v)) = true := hp
    refine ⟨(mem_mkeys n u).mpr ⟨v, hv⟩, ?_⟩
    cases hml : mlookup o u with
    | none =>
      rw [hml] at hp2
      exact Bool.noConfusion hp2
    | some w =>
      exact (mlookup_isSome_iff o u).mp (by rw [hml]; rfl)
  have hc : ∀ u, u ∈ (userDiff o n).2.2 → u ∈ mkeys o ∧ u ∉ mkeys n := by
    intro u hk
    rw [userDiff_eq o n hn] at hk
    have h3 := (mem_removeOf o n u).mp hk
    exact ⟨(mem_mkeys o u).mpr h3.1, (mlookup_eq_none_iff n u).mp h3.2⟩
  refine ⟨ha, hb, hc, ?_, ?_, ?_, ?_⟩
  · rintro u ⟨h1, h2⟩
    exact (ha u h1).2 (hb u h2).2
  · rintro u ⟨h1, h2⟩
    exact (hc u h2).2 (ha u h1).1
  · rintro u ⟨h1, h2⟩
    exact (hc u h2).2 (hb u h1).1
  · rw [userDiff_eq o n hn]
    exact nodup_removeOf o n ho

/-- Closed witness for C10 at a concrete pair of states. -/
theorem C10_userDiff_outputs_disjoint_witness :
    ¬("a" ∈ mkeys (userDiff [("a", "Editor"), ("b", "Viewer")]
        [("a", "Admin"), ("c", "Viewer")]).1
      ∧ "a" ∈ mkeys (userDiff [("a", "Editor"), ("b", "Viewer")]
        [("a", "Admin"), ("c", "Viewer")]).2.1)
    ∧ (userDiff [("a", "Editor"), ("b", "Viewer")]
        [("a", "Admin"), ("c", "Viewer")]).2.2.Nodup := by
  have h := C10_userDiff_outputs_disjoint [("a", "Editor"), ("b", "Viewer")]
    [("a", "Admin"), ("c", "Viewer")] (by decide) (by decide)
  exact ⟨h.2.2.2.1 "a", h.2.2.2.2.2.2⟩

/-- C6: `collectUsers` builds the desired mapping processing the lists
in the fixed order admins, editors, viewers, and for an email in more
than one list the role of the last list processed wins; in particular an
email in both admins and viewers maps to Viewer. -/
theorem C6_collectUsers_last_list_wins (d : ResourceData) (e : String) :
    (e ∈ d.viewersNew → mlookup (collectUsers d).2 e = some "Viewer")
    ∧ (e ∉ d.viewersNew → e ∈ d.editorsNew →
        mlookup (collectUsers d).2 e = some "Editor")
    ∧ (e ∉ d.viewersNew → e ∉ d.editorsNew → e ∈ d.adminsNew →
        mlookup (collectUsers d).2 e = some "Admin")
    ∧ (e ∉ d.viewersNew → e ∉ d.editorsNew → e ∉ d.adminsNew →
        mlookup (collectUsers d).2 e = none) := by
  refine ⟨?_, ?_, ?_, ?_⟩
  · intro h1
    rw [mlookup_collectUsers_new d e, if_pos h1]
  · intro h1 h2
    rw [mlookup_collectUsers_new d e, if_neg h1, if_pos h2]
  · intro h1 h2 h3
    rw [mlookup_collectUsers_new d e, if_neg h1, if_neg h2, if_pos h3]
  · intro h1 h2 h3
    rw [mlookup_collectUsers_new d e, if_neg h1, if_neg h2, if_neg h3]

/-- Closed witness for C6: a user listed in both admins and viewers ends
up with role Viewer (Scenario C). -/
theorem C6_collectUsers_last_list_wins_witness :
    mlookup (collectUsers ⟨1, "admin", [], ["u"], [], [], [], ["u"]⟩).2 "u"
      = some "Viewer" :=
  (C6_collectUsers_last_list_wins ⟨1, "admin", [], ["u"], [], [], [], ["u"]⟩ "u").1
    (by decide)

theorem addUsers_success_char (client : Client) (orgId : Int)
    (hs : ∀ i u r, client.addOrgUser i u r = none) :
    ∀ (users : List (Email × Role)) (um : List (String × Int)),
    addUsers client orgId users um =
      ⟨none,
       users.filterMap (fun ur =>
         if (mlookup um ur.1).isSome then some (Call.addOrgUser orgId ur.1 ur.2) else none),
       users.filterMap (fun ur =>
         if (mlookup um ur.1).isSome then none else some ur.1)⟩ := by
  intro users
  induction users with
  | nil => intro um; rfl
  | cons ur rest ih =>
    intro um
    simp only [addUsers]
    cases hml : mlookup um ur.1 with
    | none =>
      rw [ih um]
      simp [List.filterMap_cons, hml]
    | some uid =>
      rw [hs orgId ur.1 ur.2, ih um]
      simp [List.filterMap_cons, hml]

theorem updateUsers_success_char (client : Client) (orgId : Int)
    (hs : ∀ i j r, client.updateOrgUser i j r = none) :
    ∀ (users : List (Email × Role)) (um : List (String × Int)),
    updateUsers client orgId users um =
      ⟨none,
       users.filterMap (fun ur =>
         (mlookup um ur.1).map (fun uid => Call.updateOrgUser orgId uid ur.2)),
       users.filterMap (fun ur =>
         if (mlookup um ur.1).isSome then none else some ur.1)⟩ := by
  intro users
  induction users with
  | nil => intro um; rfl
  | cons ur rest ih =>
    intro um
    simp only [updateUsers]
    cases hml : mlookup um ur.1 with
    | none =>
      rw [ih um]
      simp [List.filterMap_cons, hml]
    | some uid =>
      dsimp only
      rw [hs orgId uid ur.2, ih um]
      simp [List.filterMap_cons, hml]

theorem removeUsers_success_char (client : Client) (orgId : Int)
    (hs : ∀ i j, client.removeOrgUser i j = none) :
    ∀ (users : List Email) (um : List (String × Int)),
    removeUsers client orgId users um =
      ⟨none,
       users.filterMap (fun u =>
         (mlookup um u).map (fun uid => Call.removeOrgUser orgId uid)),
       users.filterMap (fun u =>
         if (mlookup um u).isSome then none else some u)⟩ := by
  intro users
  induction users with
  | nil => intro um; rfl
  | cons u rest ih =>
    intro um
    simp only [removeUsers]
    cases hml : mlookup um u with
    | none =>
      rw [ih um]
      simp [List.filterMap_cons, hml]
    | some uid =>
      dsimp only
      rw [hs orgId uid, ih um]
      simp [List.filterMap_cons, hml]

theorem UpdateUsers_trace (client : Client) (d : ResourceData)
    (um : List (String × Int)) (hum : userMap client = Except.ok um) :
    UpdateUsers client d =
      (none,
       (addUsers client d.orgId
          (userDiff (collectUsers d).1 (collectUsers d).2).1 um).calls
         ++ (updateUsers client d.orgId
              (userDiff (collectUsers d).1 (collectUsers d).2).2.1 um).calls
         ++ (removeUsers client d.orgId
              (userDiff (collectUsers d).1 (collectUsers d).2).2.2 um).calls,
       (addUsers client d.orgId
          (userDiff (collectUsers d).1 (collectUsers d).2).1 um).skipped
         ++ (updateUsers client d.orgId
              (userDiff (collectUsers d).1 (collectUsers d).2).2.1 um).skipped
         ++ (removeUsers client d.orgId
              (userDiff (collectUsers d).1 (collectUsers d).2).2.2 um).skipped) := by
  rw [UpdateUsers, hum]

theorem addUsers_abort (client : Client) (orgId : Int) (u : Email) (r : Role)
    (rest : List (Email × Role)) (um : List (String × Int)) (uid : Int) (e : String)
    (hu : mlookup um u = some uid)
    (he : client.addOrgUser orgId u r = some e) :
    addUsers client orgId ((u, r) :: rest) um
      = ⟨some e, [Call.addOrgUser orgId u r], []⟩ := by
  simp only [addUsers]
  rw [show mlookup um (u, r).1 = some uid from hu]
  dsimp only
  rw [show client.addOrgUser orgId (u, r).1 (u, r).2 = some e from he]

theorem addUsers_calls_isAdd (client : Client) (orgId : Int) :
    ∀ (users : List (Email × Role)) (um : List (String × Int)),
    ∀ c ∈ (addUsers client orgId users um).calls, c.isAdd = true := by
  intro users
  induction users with
  | nil => intro um c hc; simp [addUsers] at hc
  | cons ur rest ih =>
    intro um c hc
    simp only [addUsers] at hc
    cases hml : mlookup um ur.1 with
    | none =>
      rw [hml] at hc
      exact ih um c hc
    | some uid =>
      rw [hml] at hc
      dsimp only at hc
      cases hcall : client.addOrgUser orgId ur.1 ur.2 with
      | some e =>
        rw [hcall] at hc
        dsimp only at hc
        rcases List.mem_singleton.mp hc with rfl
        rfl
      | none =>
        rw [hcall] at hc
        dsimp only at hc
        rcases List.mem_cons.mp hc with rfl | hc2
        · rfl
        · exact ih um c hc2

theorem updateUsers_calls_isUpdate (client : Client) (orgId : Int) :
    ∀ (users : List (Email × Role)) (um : List (String × Int)),
    ∀ c ∈ (updateUsers client orgId users um).calls, c.isUpdate = true := by
  intro users
  induction users with
  | nil => intro um c hc; simp [updateUsers] at hc
  | cons ur rest ih =>
    intro um c hc
    simp only [updateUsers] at hc
    cases hml : mlookup um ur.1 with
    | none =>
      rw [hml] at hc
      exact ih um c hc
    | some uid =>
      rw [hml] at hc
      dsimp only at hc
      cases hcall : client.updateOrgUser orgId uid ur.2 with
      | some e =>
        rw [hcall] at hc
        dsimp only at hc
        rcases List.mem_singleton.mp hc with rfl
        rfl
      | none =>
        rw [hcall] at hc
        dsimp only at hc
        rcases List.mem_cons.mp hc with rfl | hc2
        · rfl
        · exact ih um c hc2

theorem removeUsers_calls_isRemove (client : Client) (orgId : Int) :
    ∀ (users : List Email) (um : List (String × Int)),
    ∀ c ∈ (removeUsers client orgId users um).calls, c.isRemove = true := by
  intro users
  induction users with
  | nil => intro um c hc; simp [removeUsers] at hc
  | cons u rest ih =>
    intro um c hc
    simp only [removeUsers] at hc
    cases hml : mlookup um u with
    | none =>
      rw [hml] at hc
      exact ih um c hc
    | some uid =>
      rw [hml] at hc
      dsimp only at hc
      cases hcall : client.removeOrgUser orgId uid with
      | some e =>
        rw [hcall] at hc
        dsimp only at hc
        rcases List.mem_singleton.mp hc with rfl
        rfl
      | none =>
        rw [hcall] at hc
        dsimp only at hc
        rcases List.mem_cons.mp hc with rfl | hc2
        · rfl
        · exact ih um c hc2

theorem addUsers_setOrgUsers (client : Client) (f : Int → Except String (List OrgUser))
    (orgId : Int) :
    ∀ (users : List (Email × Role)) (um : List (String × Int)),
    addUsers (setOrgUsers client f) orgId users um = addUsers client orgId users um := by
  intro users
  induction users with
  | nil => intro um; rfl
  | cons ur rest ih =>
    intro um
    simp only [addUsers, setOrgUsers]
    cases mlookup um ur.1 with
    | none =>
      dsimp only
      rw [show addUsers (⟨client.users, f, client.addOrgUser, client.updateOrgUser, client.removeOrgUser⟩ : Client) orgId rest um = addUsers client orgId rest um from ih um]
    | some uid =>
      dsimp only
      cases client.addOrgUser orgId ur.1 ur.2 with
      | some e => rfl
      | none =>
        dsimp only
        rw [show addUsers (⟨client.users, f, client.addOrgUser, client.updateOrgUser, client.removeOrgUser⟩ : Client) orgId rest um = addUsers client orgId rest um from ih um]

theorem updateUsers_setOrgUsers (client : Client) (f : Int → Except String (List OrgUser))
    (orgId : Int) :
    ∀ (users : List (Email × Role)) (um : List (String × Int)),
    updateUsers (setOrgUsers client f) orgId users um
      = updateUsers client orgId users um := by
  intro users
  induction users with
  | nil => intro um; rfl
  | cons ur rest ih =>
    intro um
    simp only [updateUsers, setOrgUsers]
    cases mlookup um ur.1 with
    | none =>
      dsimp only
      rw [show updateUsers (⟨client.users, f, client.addOrgUser, client.updateOrgUser, client.removeOrgUser⟩ : Client) orgId rest um = updateUsers client orgId rest um from ih um]
    | some uid =>
      dsimp only
      cases client.updateOrgUser orgId uid ur.2 with
      | some e => rfl
      | none =>
        dsimp only
        rw [show updateUsers (⟨client.users, f, client.addOrgUser, client.updateOrgUser, client.removeOrgUser⟩ : Client) orgId rest um = updateUsers client orgId rest um from ih um]

theorem removeUsers_setOrgUsers (client : Client) (f : Int → Except String (List OrgUser))
    (orgId : Int) :
    ∀ (users : List Email) (um : List (String × Int)),
    removeUsers (setOrgUsers client f) orgId users um
      = removeUsers client orgId users um := by
  intro users
  induction users with
  | nil => intro um; rfl
  | cons u rest ih =>
    intro um
    simp only [removeUsers, setOrgUsers]
    cases mlookup um u with
    | none =>
      dsimp only
      rw [show removeUsers (⟨client.users, f, client.addOrgUser, client.updateOrgUser, client.removeOrgUser⟩ : Client) orgId rest um = removeUsers client orgId rest um from ih um]
    | some uid =>
      dsimp only
      cases client.removeOrgUser orgId uid with
      | some e => rfl
      | none =>
        dsimp only
        rw [show removeUsers (⟨client.users, f, client.addOrgUser, client.updateOrgUser, client.removeOrgUser⟩ : Client) orgId rest um = removeUsers client orgId rest um from ih um]

/-- C8: if building the identity index (the `client.Users()` query)
fails, `UpdateUsers` returns that error and no mutation call is issued:
the call trace is empty, so the remote roster is untouched by the pass. -/
theorem C8_index_failure_aborts_pass (client : Client) (d : ResourceData)
    (e : String) (he : client.users = Except.error e) :
    UpdateUsers client d = (some e, [], []) := by
  rw [UpdateUsers, userMap, he]

/-- Closed witness for C8. -/
theorem C8_index_failure_aborts_pass_witness :
    UpdateUsers cUsersDown dOneAdmin = (some "users query failed", [], []) :=
  C8_index_failure_aborts_pass cUsersDown dOneAdmin "users query failed" rfl

/-- C3 (code bug in the source): a failing AddOrgUser call during the
add phase is dropped by `UpdateUsers`.  At this input the add phase
itself returns the error "boom" after attempting the call, yet
`UpdateUsers` returns nil (`none`): lines 181-184 of the source discard
the results of all three phase calls. -/
theorem C3_mutation_error_swallowed :
    (addUsers cAddFails 1 [("alice", "Admin")]
      [("alice", 1), ("a", 1), ("b", 2), ("x", 9)]).err = some "boom"
    ∧ (userDiff (collectUsers dOneAdmin).1 (collectUsers dOneAdmin).2).1
        = [("alice", "Admin")]
    ∧ UpdateUsers cAddFails dOneAdmin
        = (none, [Call.addOrgUser 1 "alice" "Admin"], []) := by
  exact ⟨rfl, rfl, rfl⟩

/-- Counterexample to C4 as stated: the diff has two add entries whose
emails both resolve in the index, every AddOrgUser call fails, and the
pass issues only one remote call — the entry processed after the failing
call is never attempted, because `addUsers` returns on the first error. -/
theorem C4_counterexample :
    (userDiff (collectUsers dTwoAdmins).1 (collectUsers dTwoAdmins).2).1
      = [("a", "Admin"), ("b", "Admin")]
    ∧ userMap cAddFails = Except.ok [("alice", 1), ("a", 1), ("b", 2), ("x", 9)]
    ∧ mlookup [("alice", 1), ("a", 1), ("b", 2), ("x", 9)] "b" = some 2
    ∧ UpdateUsers cAddFails dTwoAdmins
        = (none, [Call.addOrgUser 1 "a" "Admin"], []) := by
  exact ⟨rfl, rfl, rfl, rfl⟩

/-- C4 amended: a failing remote call aborts the remaining operations of
its own phase (the phase function returns that error at once), but
operations of later phases are still attempted, because `UpdateUsers`
discards each phase's error: any resolvable entry of the remove list is
still called even when the add phase failed. -/
theorem C4_amended_same_phase_aborts_later_phases_run :
    (∀ (client : Client) (orgId : Int) (u : Email) (r : Role)
      (rest : List (Email × Role)) (um : List (String × Int)) (uid : Int) (e : String),
      mlookup um u = some uid → client.addOrgUser orgId u r = some e →
      (addUsers client orgId ((u, r) :: rest) um).calls = [Call.addOrgUser orgId u r])
    ∧ (∀ (client : Client) (d : ResourceData) (um : List (String × Int))
        (u : Email) (uid : Int),
      userMap client = Except.ok um →
      u ∈ (userDiff (collectUsers d).1 (collectUsers d).2).2.2 →
      mlookup um u = some uid →
      (∀ i j, client.removeOrgUser i j = none) →
      Call.removeOrgUser d.orgId uid ∈ (UpdateUsers client d).2.1) := by
  constructor
  · intro client orgId u r rest um uid e hu he
    rw [addUsers_abort client orgId u r rest um uid e hu he]
  · intro client d um u uid hum hmem hu hrem
    rw [UpdateUsers_trace client d um hum]
    show Call.removeOrgUser d.orgId uid ∈ _ ++ _ ++ _
    rw [removeUsers_success_char client d.orgId hrem
      (userDiff (collectUsers d).1 (collectUsers d).2).2.2 um]
    apply List.mem_append_right
    dsimp only
    apply List.mem_filterMap.mpr
    refine ⟨u, hmem, ?_⟩
    rw [hu]
    rfl

/-- Closed witness for the amended C4: with every AddOrgUser call
failing, the add phase stops at its first entry, yet the resolvable
remove entry "x" (id 9) is still called. -/
theorem C4_amended_witness :
    (addUsers cAddFails 1 [("a", "Admin"), ("b", "Admin")]
      [("alice", 1), ("a", 1), ("b", 2), ("x", 9)]).calls
        = [Call.addOrgUser 1 "a" "Admin"]
    ∧ Call.removeOrgUser 1 9 ∈ (UpdateUsers cAddFails dMix).2.1 := by
  constructor
  · exact C4_amended_same_phase_aborts_later_phases_run.1 cAddFails 1 "a" "Admin"
      [("b", "Admin")] [("alice", 1), ("a", 1), ("b", 2), ("x", 9)] 1 "boom" rfl rfl
  · exact C4_amended_same_phase_aborts_later_phases_run.2 cAddFails dMix
      [("alice", 1), ("a", 1), ("b", 2), ("x", 9)] "x" 9 rfl (by decide) rfl
      (fun i j => rfl)

/-- Counterexample to C2 as stated: the observed side `UpdateUsers`
passes to `userDiff` is `(collectUsers d).1`, built from the stored old
role lists, and here it is empty and differs from the mapping a fresh
`OrgUsers` query yields; consequently the pass issues no call at all,
although a freshly queried observed state contains a removable user. -/
theorem C2_counterexample :
    (collectUsers dStale).1 = []
    ∧ specObservedFresh cStaleState dStale = Except.ok [("b@x", "Viewer")]
    ∧ (collectUsers dStale).1
        ≠ observedFromRoster [⟨"bob", "b@x", "Viewer"⟩] dStale.adminUser
    ∧ UpdateUsers cStaleState dStale = (none, [], []) := by
  exact ⟨rfl, rfl, by decide, rfl⟩

/-- C2 amended: the observed side of the diff comes from the role lists
stored in the resource data (the prior state, as last written by a
`ReadUsers` refresh), not from a roster query made during the pass:
`UpdateUsers` never invokes the `OrgUsers` oracle, so its entire result
is unchanged under any replacement of that oracle. -/
theorem C2_amended_observed_from_state (client : Client)
    (f : Int → Except String (List OrgUser)) (d : ResourceData) :
    UpdateUsers (setOrgUsers client f) d = UpdateUsers client d := by
  rw [UpdateUsers, UpdateUsers]
  rw [show userMap (setOrgUsers client f) = userMap client from rfl]
  cases userMap client with
  | error e => rfl
  | ok um =>
    dsimp only
    rw [addUsers_setOrgUsers client f d.orgId _ um,
      updateUsers_setOrgUsers client f d.orgId _ um,
      removeUsers_setOrgUsers client f d.orgId _ um]

/-- C7: when every remote call succeeds, each phase processes exactly
its list: entries whose email is missing from the index are skipped with
a warning and produce no remote call, and every entry whose email does
resolve produces its remote call — a skip never stops the phase. -/
theorem C7_unknown_user_skipped (client : Client) (orgId : Int)
    (addList updList : List (Email × Role)) (remList : List Email)
    (um : List (String × Int))
    (hadd : ∀ i v r, client.addOrgUser i v r = none)
    (hupd : ∀ i j r, client.updateOrgUser i j r = none)
    (hrem : ∀ i j, client.removeOrgUser i j = none) :
    (addUsers client orgId addList um
      = ⟨none,
         addList.filterMap (fun ur =>
           if (mlookup um ur.1).isSome then some (Call.addOrgUser orgId ur.1 ur.2)
           else none),
         addList.filterMap (fun ur =>
           if (mlookup um ur.1).isSome then none else some ur.1)⟩)
    ∧ (updateUsers client orgId updList um
      = ⟨none,
         updList.filterMap (fun ur =>
           (mlookup um ur.1).map (fun uid => Call.updateOrgUser orgId uid ur.2)),
         updList.filterMap (fun ur =>
           if (mlookup um ur.1).isSome then none else some ur.1)⟩)
    ∧ (removeUsers client orgId remList um
      = ⟨none,
         remList.filterMap (fun v =>
           (mlookup um v).map (fun uid => Call.removeOrgUser orgId uid)),
         remList.filterMap (fun v =>
           if (mlookup um v).isSome then none else some v)⟩) :=
  ⟨addUsers_success_char client orgId hadd addList um,
   updateUsers_success_char client orgId hupd updList um,
   removeUsers_success_char client orgId hrem remList um⟩

/-- Closed witness for C7: "c" is unknown to the index, is skipped with
a warning and gets no call, while "a" after it is still added; the known
user "b" is removed. -/
theorem C7_unknown_user_skipped_witness :
    addUsers cAllOk 1 [("c", "Viewer"), ("a", "Admin")] [("a", 1), ("b", 2)]
      = ⟨none, [Call.addOrgUser 1 "a" "Admin"], ["c"]⟩
    ∧ removeUsers cAllOk 1 ["b"] [("a", 1), ("b", 2)]
      = ⟨none, [Call.removeOrgUser 1 2], []⟩ := by
  have h := C7_unknown_user_skipped cAllOk 1 [("c", "Viewer"), ("a", "Admin")] []
    ["b"] [("a", 1), ("b", 2)] (fun i v r => rfl) (fun i j r => rfl) (fun i j => rfl)
  constructor
  · rw [h.1]
    rfl
  · rw [h.2.2]
    rfl

theorem not_mem_mkeys_addOf (o n : List (Email × Role)) (u : Email) (r : Role)
    (hou : mlookup o u = some r) : u ∉ mkeys (addOf o n) := by
  intro hk
  obtain ⟨v, hv, hp⟩ := (mem_mkeys_filter n _ u).mp hk
  have hp2 : (mlookup o u).isNone = true := hp
  rw [hou] at hp2
  exact Bool.noConfusion hp2

theorem mlookup_updateOf_eq (o n : List (Email × Role)) (u : Email) (r r2 : Role)
    (hn : (mkeys n).Nodup) (hnu : mlookup n u = some r) (hou : mlookup o u = some r2)
    (hne : r2 ≠ r) : mlookup (updateOf o n) u = some r := by
  rw [updateOf, mlookup_filter n _ u hn, hnu, Option.some_bind]
  show (if (match mlookup o u with
      | none => false
      | some oldRole => decide (oldRole ≠ r)) = true then some r else none) = some r
  rw [hou]
  show (if decide (r2 ≠ r) = true then some r else none) = some r
  rw [if_pos (decide_eq_true hne)]

theorem not_mem_removeOf_of_mem_new (o n : List (Email × Role)) (u : Email) (r : Role)
    (hnu : mlookup n u = some r) : u ∉ removeOf o n := by
  intro hk
  have h3 := (mem_removeOf o n u).mp hk
  rw [hnu] at h3
  exact Option.noConfusion h3.2

theorem filter_mentions_add_nil (orgId uid : Int) (u : Email)
    (um : List (String × Int)) :
    ∀ (l : List (Email × Role)), u ∉ mkeys l →
    (l.filterMap (fun ur =>
        if (mlookup um ur.1).isSome then some (Call.addOrgUser orgId ur.1 ur.2)
        else none)).filter (fun c => Call.mentions c u uid) = [] := by
  intro l
  induction l with
  | nil => intro _; rfl
  | cons ur rest ih =>
    intro hl
    rw [show mkeys (ur :: rest) = ur.1 :: mkeys rest from rfl, List.mem_cons, not_or] at hl
    rw [List.filterMap_cons]
    cases hml : mlookup um ur.1 with
    | none =>
      exact ih hl.2
    | some uid2 =>
      show List.filter (fun c => Call.mentions c u uid)
        (Call.addOrgUser orgId ur.1 ur.2 ::
          List.filterMap (fun ur =>
            if (mlookup um ur.1).isSome then some (Call.addOrgUser orgId ur.1 ur.2)
            else none) rest) = []
      rw [List.filter_cons]
      rw [show Call.mentions (Call.addOrgUser orgId ur.1 ur.2) u uid = false by
        simp only [Call.mentions, decide_eq_false_iff_not]
        exact fun h => hl.1 h.symm]
      rw [if_neg Bool.false_ne_true]
      exact ih hl.2

theorem filter_mentions_update_nil (orgId uid : Int) (u : Email)
    (um : List (String × Int))
    (hinj : ∀ v i, v ≠ u → mlookup um v = some i → i ≠ uid) :
    ∀ (l : List (Email × Role)), u ∉ mkeys l →
    (l.filterMap (fun ur =>
        (mlookup um ur.1).map (fun j => Call.updateOrgUser orgId j ur.2))).filter
      (fun c => Call.mentions c u uid) = [] := by
  intro l
  induction l with
  | nil => intro _; rfl
  | cons ur rest ih =>
    intro hl
    rw [show mkeys (ur :: rest) = ur.1 :: mkeys rest from rfl, List.mem_cons, not_or] at hl
    rw [List.filterMap_cons]
    cases hml : mlookup um ur.1 with
    | none =>
      exact ih hl.2
    | some j =>
      show List.filter (fun c => Call.mentions c u uid)
        (Call.updateOrgUser orgId j ur.2 ::
          List.filterMap (fun ur =>
            (mlookup um ur.1).map (fun j => Call.updateOrgUser orgId j ur.2)) rest) = []
      rw [List.filter_cons]
      rw [show Call.mentions (Call.updateOrgUser orgId j ur.2) u uid = false by
        simp only [Call.mentions, decide_eq_false_iff_not]
        exact hinj ur.1 j (fun h => hl.1 h.symm) hml]
      rw [if_neg Bool.false_ne_true]
      exact ih hl.2

theorem filter_mentions_remove_nil (orgId uid : Int) (u : Email)
    (um : List (String × Int))
    (hinj : ∀ v i, v ≠ u → mlookup um v = some i → i ≠ uid) :
    ∀ (l : List Email), u ∉ l →
    (l.filterMap (fun v =>
        (mlookup um v).map (fun j => Call.removeOrgUser orgId j))).filter
      (fun c => Call.mentions c u uid) = [] := by
  intro l
  induction l with
  | nil => intro _; rfl
  | cons v rest ih =>
    intro hl
    rw [List.mem_cons, not_or] at hl
    rw [List.filterMap_cons]
    cases hml : mlookup um v with
    | none =>
      exact ih hl.2
    | some j =>
      show List.filter (fun c => Call.mentions c u uid)
        (Call.removeOrgUser orgId j ::
          List.filterMap (fun v =>
            (mlookup um v).map (fun j => Call.removeOrgUser orgId j)) rest) = []
      rw [List.filter_cons]
      rw [show Call.mentions (Call.removeOrgUser orgId j) u uid = false by
        simp only [Call.mentions, decide_eq_false_iff_not]
        exact hinj v j (fun h => hl.1 h.symm) hml]
      rw [if_neg Bool.false_ne_true]
      exact ih hl.2

theorem filter_mentions_update_single (orgId uid : Int) (u : Email) (r2 : Role)
    (um : List (String × Int)) (hu : mlookup um u = some uid)
    (hinj : ∀ v i, v ≠ u → mlookup um v = some i → i ≠ uid) :
    ∀ (l : List (Email × Role)), (mkeys l).Nodup → mlookup l u = some r2 →
    (l.filterMap (fun ur =>
        (mlookup um ur.1).map (fun j => Call.updateOrgUser orgId j ur.2))).filter
      (fun c => Call.mentions c u uid) = [Call.updateOrgUser orgId uid r2] := by
  intro l
  induction l with
  | nil =>
    intro _ hml
    exact absurd hml (by simp [mlookup])
  | cons ur rest ih =>
    intro hnd hml
    rw [show mkeys (ur :: rest) = ur.1 :: mkeys rest from rfl, List.nodup_cons] at hnd
    by_cases he : ur.1 = u
    · have h2 : ur.2 = r2 := by
        rw [show mlookup (ur :: rest) u = some ur.2 by simp [mlookup, he]] at hml
        injection hml with h3
      rw [List.filterMap_cons]
      rw [show ((mlookup um ur.1).map (fun j => Call.updateOrgUser orgId j ur.2))
          = some (Call.updateOrgUser orgId uid ur.2) by rw [he, hu]; rfl]
      rw [List.filter_cons]
      rw [show Call.mentions (Call.updateOrgUser orgId uid ur.2) u uid = true by
        simp [Call.mentions]]
      rw [if_pos rfl, h2]
      rw [filter_mentions_update_nil orgId uid u um hinj rest (by rw [← he]; exact hnd.1)]
    · have hml2 : mlookup rest u = some r2 := by
        rw [show mlookup (ur :: rest) u = mlookup rest u by simp [mlookup, he]] at hml
        exact hml
      rw [List.filterMap_cons]
      cases hmlu : mlookup um ur.1 with
      | none =>
        exact ih hnd.2 hml2
      | some j =>
        show List.filter (fun c => Call.mentions c u uid)
          (Call.updateOrgUser orgId j ur.2 ::
            List.filterMap (fun ur =>
              (mlookup um ur.1).map (fun j => Call.updateOrgUser orgId j ur.2)) rest)
          = [Call.updateOrgUser orgId uid r2]
        rw [List.filter_cons]
        rw [show Call.mentions (Call.updateOrgUser orgId j ur.2) u uid = false by
          simp only [Call.mentions, decide_eq_false_iff_not]
          exact hinj ur.1 j he hmlu]
        rw [if_neg Bool.false_ne_true]
        exact ih hnd.2 hml2

/-- C9: `UpdateUsers` applies the three phases in the fixed order add,
update, remove — its call trace is the whole add-phase trace, then the
whole update-phase trace, then the whole remove-phase trace — and a role
change for a user present in both states is issued as exactly one
UpdateOrgUser call for that user's id, never as a RemoveOrgUser followed
by an AddOrgUser: the calls of the trace targeting that user (by email
for adds, by id for updates and removes) are exactly the single update
call.  Remote calls are assumed to succeed (a failing call truncates a
phase; see the C4 analysis) and the user's id must identify it uniquely
in the index. -/
theorem C9_phase_order_and_single_update (client : Client) (d : ResourceData)
    (um : List (String × Int)) (u : Email) (r1 r2 : Role) (uid : Int)
    (hum : userMap client = Except.ok um)
    (hadd : ∀ i v r, client.addOrgUser i v r = none)
    (hupd : ∀ i j r, client.updateOrgUser i j r = none)
    (hrem : ∀ i j, client.removeOrgUser i j = none)
    (hou : mlookup (collectUsers d).1 u = some r1)
    (hnu : mlookup (collectUsers d).2 u = some r2)
    (hne : r1 ≠ r2)
    (hu : mlookup um u = some uid)
    (hinj : ∀ v i, v ≠ u → mlookup um v = some i → i ≠ uid) :
    (∃ cs1 cs2 cs3, (UpdateUsers client d).2.1 = cs1 ++ cs2 ++ cs3
      ∧ (∀ c ∈ cs1, Call.isAdd c = true) ∧ (∀ c ∈ cs2, Call.isUpdate c = true)
      ∧ (∀ c ∈ cs3, Call.isRemove c = true))
    ∧ (UpdateUsers client d).2.1.filter (fun c => Call.mentions c u uid)
        = [Call.updateOrgUser d.orgId uid r2] := by
  have hdiff := userDiff_eq (collectUsers d).1 (collectUsers d).2
    (nodup_collectUsers_new d)
  constructor
  · refine ⟨(addUsers client d.orgId
        (userDiff (collectUsers d).1 (collectUsers d).2).1 um).calls,
      (updateUsers client d.orgId
        (userDiff (collectUsers d).1 (collectUsers d).2).2.1 um).calls,
      (removeUsers client d.orgId
        (userDiff (collectUsers d).1 (collectUsers d).2).2.2 um).calls,
      ?_, ?_, ?_, ?_⟩
    · rw [UpdateUsers_trace client d um hum]
    · exact addUsers_calls_isAdd client d.orgId _ um
    · exact updateUsers_calls_isUpdate client d.orgId _ um
    · exact removeUsers_calls_isRemove client d.orgId _ um
  · rw [UpdateUsers_trace client d um hum]
    dsimp only
    rw [addUsers_success_char client d.orgId hadd _ um,
      updateUsers_success_char client d.orgId hupd _ um,
      removeUsers_success_char client d.orgId hrem _ um]
    dsimp only
    rw [hdiff]
    dsimp only
    rw [List.filter_append, List.filter_append]
    rw [filter_mentions_add_nil d.orgId uid u um
      (addOf (collectUsers d).1 (collectUsers d).2)
      (not_mem_mkeys_addOf (collectUsers d).1 (collectUsers d).2 u r1 hou)]
    rw [filter_mentions_update_single d.orgId uid u r2 um hu hinj
      (updateOf (collectUsers d).1 (collectUsers d).2)
      (nodup_mkeys_filter (collectUsers d).2 _ (nodup_collectUsers_new d))
      (mlookup_updateOf_eq (collectUsers d).1 (collectUsers d).2 u r2 r1
        (nodup_collectUsers_new d) hnu hou hne)]
    rw [filter_mentions_remove_nil d.orgId uid u um hinj
      (removeOf (collectUsers d).1 (collectUsers d).2)
      (not_mem_removeOf_of_mem_new (collectUsers d).1 (collectUsers d).2 u r2 hnu)]
    rfl

/-- Closed witness for C9: the role change Editor-to-Admin for "a"
(id 1) is carried out by exactly one UpdateOrgUser call. -/
theorem C9_phase_order_and_single_update_witness :
    (UpdateUsers cAllOk dRoleChange).2.1.filter (fun c => Call.mentions c "a" 1)
      = [Call.updateOrgUser 1 1 "Admin"] :=
  (C9_phase_order_and_single_update cAllOk dRoleChange [("a", 1), ("b", 2)] "a"
    "Editor" "Admin" 1 rfl (fun i v r => rfl) (fun i j r => rfl) (fun i j => rfl)
    (by decide) (by decide) (by decide) (by decide)
    (by
      intro v i hv hm
      simp only [mlookup] at hm
      rw [if_neg (fun h => hv h.symm)] at hm
      by_cases hb : ("b" : String) = v
      · rw [if_pos hb] at hm
        simp only [Option.some_inj] at hm
        rw [← hm]
        decide
      · rw [if_neg hb] at hm
        exact Option.noConfusion hm)).2

theorem ReadUsers_eq_foldl (roster : List OrgUser) (ga : String) :
    ReadUsers roster ga = roster.foldl (readStep ga) ([], [], []) := rfl

theorem foldl_readStep_acc (ga : String) :
    ∀ (roster : List OrgUser) (acc : List String × List String × List String),
    roster.foldl (readStep ga) acc
      = (acc.1 ++ (roster.foldl (readStep ga) ([], [], [])).1,
         acc.2.1 ++ (roster.foldl (readStep ga) ([], [], [])).2.1,
         acc.2.2 ++ (roster.foldl (readStep ga) ([], [], [])).2.2) := by
  intro roster
  induction roster with
  | nil => intro acc; simp
  | cons ou rest ih =>
    intro acc
    rw [List.foldl_cons, List.foldl_cons]
    rw [ih (readStep ga acc ou), ih (readStep ga ([], [], []) ou)]
    by_cases h1 : ou.login ≠ ga
    · by_cases h2 : ou.role = "Admin"
      · simp [readStep, h1, h2]
      · by_cases h3 : ou.role = "Editor"
        · simp [readStep, h1, h2, h3]
        · by_cases h4 : ou.role = "Viewer"
          · simp [readStep, h1, h2, h3, h4]
          · simp [readStep, h1, h2, h3, h4]
    · simp [readStep, h1]

theorem ReadUsers_cons (ou : OrgUser) (rest : List OrgUser) (ga : String) :
    ReadUsers (ou :: rest) ga =
      (if ou.login ≠ ga ∧ ou.role = "Admin"
        then ou.email :: (ReadUsers rest ga).1 else (ReadUsers rest ga).1,
       if ou.login ≠ ga ∧ ou.role = "Editor"
        then ou.email :: (ReadUsers rest ga).2.1 else (ReadUsers rest ga).2.1,
       if ou.login ≠ ga ∧ ou.role = "Viewer"
        then ou.email :: (ReadUsers rest ga).2.2 else (ReadUsers rest ga).2.2) := by
  rw [ReadUsers_eq_foldl, List.foldl_cons,
    foldl_readStep_acc ga rest (readStep ga ([], [], []) ou),
    ReadUsers_eq_foldl]
  by_cases h1 : ou.login ≠ ga
  · by_cases h2 : ou.role = "Admin"
    · have h3 : ¬(ou.role = "Editor") := by rw [h2]; decide
      have h4 : ¬(ou.role = "Viewer") := by rw [h2]; decide
      simp [readStep, h1, h2, h3, h4]
    · by_cases h3 : ou.role = "Editor"
      · have h4 : ¬(ou.role = "Viewer") := by rw [h3]; decide
        simp [readStep, h1, h2, h3, h4]
      · by_cases h4 : ou.role = "Viewer"
        · simp [readStep, h1, h2, h3, h4]
        · simp [readStep, h1, h2, h3, h4]
  · simp [readStep, h1]

theorem not_mem_ReadUsers_of_exempt (ga x : String) :
    ∀ (roster : List OrgUser), (∀ ou ∈ roster, ou.email = x → ou.login = ga) →
    x ∉ (ReadUsers roster ga).1 ∧ x ∉ (ReadUsers roster ga).2.1
      ∧ x ∉ (ReadUsers roster ga).2.2 := by
  intro roster
  induction roster with
  | nil =>
    intro _
    refine ⟨?_, ?_, ?_⟩ <;> simp [ReadUsers]
  | cons ou rest ih =>
    intro h
    have hrest := ih (fun ou2 h2 => h ou2 (List.mem_cons_of_mem ou h2))
    have hhead : ¬(x = ou.email ∧ ou.login ≠ ga) := by
      rintro ⟨he, hl⟩
      exact hl (h ou (List.mem_cons_self ou rest) he.symm)
    rw [ReadUsers_cons]
    refine ⟨?_, ?_, ?_⟩
    · by_cases hc : ou.login ≠ ga ∧ ou.role = "Admin"
      · rw [if_pos hc, List.mem_cons, not_or]
        exact ⟨fun he => hhead ⟨he, hc.1⟩, hrest.1⟩
      · rw [if_neg hc]
        exact hrest.1
    · by_cases hc : ou.login ≠ ga ∧ ou.role = "Editor"
      · rw [if_pos hc, List.mem_cons, not_or]
        exact ⟨fun he => hhead ⟨he, hc.1⟩, hrest.2.1⟩
      · rw [if_neg hc]
        exact hrest.2.1
    · by_cases hc : ou.login ≠ ga ∧ ou.role = "Viewer"
      · rw [if_pos hc, List.mem_cons, not_or]
        exact ⟨fun he => hhead ⟨he, hc.1⟩, hrest.2.2⟩
      · rw [if_neg hc]
        exact hrest.2.2

theorem mem_ReadUsers_of_entry (ga : String) :
    ∀ (roster : List OrgUser) (ou : OrgUser), ou ∈ roster → ou.login ≠ ga →
    (ou.role = "Admin" → ou.email ∈ (ReadUsers roster ga).1)
    ∧ (ou.role = "Editor" → ou.email ∈ (ReadUsers roster ga).2.1)
    ∧ (ou.role = "Viewer" → ou.email ∈ (ReadUsers roster ga).2.2) := by
  intro roster
  induction roster with
  | nil =>
    intro ou h
    exact absurd h (by simp)
  | cons ou2 rest ih =>
    intro ou hmem hlogin
    rw [ReadUsers_cons]
    rcases List.mem_cons.mp hmem with he | hmem2
    · subst he
      refine ⟨?_, ?_, ?_⟩ <;> intro hrole
      · rw [if_pos (show ou.login ≠ ga ∧ ou.role = "Admin" from ⟨hlogin, hrole⟩)]
        exact List.mem_cons_self _ _
      · rw [if_pos (show ou.login ≠ ga ∧ ou.role = "Editor" from ⟨hlogin, hrole⟩)]
        exact List.mem_cons_self _ _
      · rw [if_pos (show ou.login ≠ ga ∧ ou.role = "Viewer" from ⟨hlogin, hrole⟩)]
        exact List.mem_cons_self _ _
    · have hr := ih ou hmem2 hlogin
      refine ⟨?_, ?_, ?_⟩ <;> intro hrole
      · by_cases hc : ou2.login ≠ ga ∧ ou2.role = "Admin"
        · rw [if_pos hc]
          exact List.mem_cons_of_mem _ (hr.1 hrole)
        · rw [if_neg hc]
          exact hr.1 hrole
      · by_cases hc : ou2.login ≠ ga ∧ ou2.role = "Editor"
        · rw [if_pos hc]
          exact List.mem_cons_of_mem _ (hr.2.1 hrole)
        · rw [if_neg hc]
          exact hr.2.1 hrole
      · by_cases hc : ou2.login ≠ ga ∧ ou2.role = "Viewer"
        · rw [if_pos hc]
          exact List.mem_cons_of_mem _ (hr.2.2 hrole)
        · rw [if_neg hc]
          exact hr.2.2 hrole

theorem collectUsers_old_refreshed (roster : List OrgUser) (grafAdmin : String)
    (admins editors viewers : List String) (orgId : Int) :
    (collectUsers (refreshedData roster grafAdmin admins editors viewers orgId)).1
      = observedFromRoster roster grafAdmin := by
  rw [collectUsers_old_eq, observedFromRoster, collectUsers_old_eq]
  rfl

/-- C5: with the exempt admin login configured as "admin", a roster user
whose login is "admin" (and whose email belongs to no other roster
entry and is not separately declared in the desired lists) appears
neither in the observed mapping nor in the add, update or remove sets of
the diff computed from the refreshed state — no mutation targets it.
With the exempt login configured as the empty string, that same user
participates like any ordinary member: when absent from the desired
lists it lands in the remove set. -/
theorem C5_exempt_admin_login (roster : List OrgUser) (ou : OrgUser)
    (admins editors viewers : List String) (orgId : Int)
    (hmem : ou ∈ roster) :
    ((ou.login = "admin" →
      (∀ ou2 ∈ roster, ou2.email = ou.email → ou2.login = "admin") →
      ou.email ∉ admins → ou.email ∉ editors → ou.email ∉ viewers →
      ou.email ∉ mkeys (observedFromRoster roster "admin")
      ∧ ou.email ∉ mkeys (userDiff
          (collectUsers (refreshedData roster "admin" admins editors viewers orgId)).1
          (collectUsers (refreshedData roster "admin" admins editors viewers orgId)).2).1
      ∧ ou.email ∉ mkeys (userDiff
          (collectUsers (refreshedData roster "admin" admins editors viewers orgId)).1
          (collectUsers (refreshedData roster "admin" admins editors viewers orgId)).2).2.1
      ∧ ou.email ∉ (userDiff
          (collectUsers (refreshedData roster "admin" admins editors viewers orgId)).1
          (collectUsers (refreshedData roster "admin" admins editors viewers orgId)).2).2.2)
    ∧ (ou.login = "admin" →
      (ou.role = "Admin" ∨ ou.role = "Editor" ∨ ou.role = "Viewer") →
      ou.email ∉ admins → ou.email ∉ editors → ou.email ∉ viewers →
      ou.email ∈ (userDiff
          (collectUsers (refreshedData roster "" admins editors viewers orgId)).1
          (collectUsers (refreshedData roster "" admins editors viewers orgId)).2).2.2)) := by
  constructor
  · intro hlogin huniq hna hne hnv
    have hlists := not_mem_ReadUsers_of_exempt "admin" ou.email roster
      (fun ou2 h2 he => huniq ou2 h2 he)
    have hobs : mlookup
        (collectUsers (refreshedData roster "admin" admins editors viewers orgId)).1
        ou.email = none := by
      rw [mlookup_collectUsers_old]
      rw [show (refreshedData roster "admin" admins editors viewers orgId).viewersOld
          = (ReadUsers roster "admin").2.2 from rfl]
      rw [show (refreshedData roster "admin" admins editors viewers orgId).editorsOld
          = (ReadUsers roster "admin").2.1 from rfl]
      rw [show (refreshedData roster "admin" admins editors viewers orgId).adminsOld
          = (ReadUsers roster "admin").1 from rfl]
      rw [if_neg hlists.2.2, if_neg hlists.2.1, if_neg hlists.1]
    have hdes : mlookup
        (collectUsers (refreshedData roster "admin" admins editors viewers orgId)).2
        ou.email = none := by
      rw [mlookup_collectUsers_new]
      rw [show (refreshedData roster "admin" admins editors viewers orgId).viewersNew
          = viewers from rfl]
      rw [show (refreshedData roster "admin" admins editors viewers orgId).editorsNew
          = editors from rfl]
      rw [show (refreshedData roster "admin" admins editors viewers orgId).adminsNew
          = admins from rfl]
      rw [if_neg hnv, if_neg hne, if_neg hna]
    refine ⟨?_, ?_, ?_, ?_⟩
    · rw [← collectUsers_old_refreshed roster "admin" admins editors viewers orgId]
      exact (mlookup_eq_none_iff _ _).mp hobs
    · rw [userDiff_eq _ _ (nodup_collectUsers_new _)]
      intro hk
      obtain ⟨v, hv, _⟩ := (mem_mkeys_filter _ _ _).mp hk
      exact (mlookup_eq_none_iff _ _).mp hdes ((mem_mkeys _ _).mpr ⟨v, hv⟩)
    · rw [userDiff_eq _ _ (nodup_collectUsers_new _)]
      intro hk
      obtain ⟨v, hv, _⟩ := (mem_mkeys_filter _ _ _).mp hk
      exact (mlookup_eq_none_iff _ _).mp hdes ((mem_mkeys _ _).mpr ⟨v, hv⟩)
    · rw [userDiff_eq _ _ (nodup_collectUsers_new _)]
      intro hk
      obtain ⟨⟨v, hv⟩, _⟩ := (mem_removeOf _ _ _).mp hk
      exact (mlookup_eq_none_iff _ _).mp hobs ((mem_mkeys _ _).mpr ⟨v, hv⟩)
  · intro hlogin hrole hna hne hnv
    have hlogin2 : ou.login ≠ "" := by
      rw [hlogin]
      decide
    have hentry := mem_ReadUsers_of_entry "" roster ou hmem hlogin2
    have hobs : mlookup
        (collectUsers (refreshedData roster "" admins editors viewers orgId)).1
        ou.email ≠ none := by
      rw [mlookup_collectUsers_old]
      rw [show (refreshedData roster "" admins editors viewers orgId).viewersOld
          = (ReadUsers roster "").2.2 from rfl]
      rw [show (refreshedData roster "" admins editors viewers orgId).editorsOld
          = (ReadUsers roster "").2.1 from rfl]
      rw [show (refreshedData roster "" admins editors viewers orgId).adminsOld
          = (ReadUsers roster "").1 from rfl]
      by_cases h1 : ou.email ∈ (ReadUsers roster "").2.2
      · rw [if_pos h1]
        exact Option.noConfusion
      · rw [if_neg h1]
        by_cases h2 : ou.email ∈ (ReadUsers roster "").2.1
        · rw [if_pos h2]
          exact Option.noConfusion
        · rw [if_neg h2]
          have h3 : ou.email ∈ (ReadUsers roster "").1 := by
            rcases hrole with hr | hr | hr
            · exact hentry.1 hr
            · exact absurd (hentry.2.1 hr) h2
            · exact absurd (hentry.2.2 hr) h1
          rw [if_pos h3]
          exact Option.noConfusion
    have hdes : mlookup
        (collectUsers (refreshedData roster "" admins editors viewers orgId)).2
        ou.email = none := by
      rw [mlookup_collectUsers_new]
      rw [show (refreshedData roster "" admins editors viewers orgId).viewersNew
          = viewers from rfl]
      rw [show (refreshedData roster "" admins editors viewers orgId).editorsNew
          = editors from rfl]
      rw [show (refreshedData roster "" admins editors viewers orgId).adminsNew
          = admins from rfl]
      rw [if_neg hnv, if_neg hne, if_neg hna]
    rw [userDiff_eq _ _ (nodup_collectUsers_new _)]
    refine (mem_removeOf _ _ _).mpr ⟨?_, hdes⟩
    refine (mem_mkeys _ _).mp ?_
    cases hml : mlookup
        (collectUsers (refreshedData roster "" admins editors viewers orgId)).1
        ou.email with
    | none => exact absurd hml hobs
    | some v =>
      exact (mlookup_isSome_iff _ _).mp (by rw [hml]; rfl)

/-- Closed witness for C5: with exemption on, the admin's email is in no
diff output; with the exemption disabled (empty exempt login), the same
user is scheduled for removal. -/
theorem C5_exempt_admin_login_witness :
    "ad@x" ∉ (userDiff
        (collectUsers (refreshedData roster5 "admin" [] [] [] 1)).1
        (collectUsers (refreshedData roster5 "admin" [] [] [] 1)).2).2.2
    ∧ "ad@x" ∈ (userDiff
        (collectUsers (refreshedData roster5 "" [] [] [] 1)).1
        (collectUsers (refreshedData roster5 "" [] [] [] 1)).2).2.2 := by
  have h := C5_exempt_admin_login roster5 ⟨"admin", "ad@x", "Admin"⟩ [] [] [] 1
    (by decide)
  exact ⟨(h.1 rfl (by decide) (by decide) (by decide) (by decide)).2.2.2,
    h.2 rfl (Or.inl rfl) (by decide) (by decide) (by decide)⟩
